import Mathlib

/-!
Verification of the premium grid engine (options-premiums UI page).

The page's engine is embedded shallowly:
* JavaScript field values are `JSVal` (numbers idealised as `ℚ`, strings,
  `null`, `undefined`); a `PremiumRow` object is an association list from
  property names to values, a missing property reading as `undefined`.
* `fmt` / `money` mirror the two display formatters, with
  `Number.prototype.toLocaleString` (en-US default locale: comma thousands
  grouping, `maximumFractionDigits` as given, round half away from zero)
  modelled by `localeStr` and `Number.prototype.toFixed` by `toFixedStr`.
* The `filteredSorted` memo is split into `filterStep` (which can throw a
  `TypeError` exactly where the page can: calling `toLowerCase` on a
  non-string, non-nullish `symbol`) and `jsSortStep`, a stable sort with the
  page's comparator.
* `netTotalsByDelta` mirrors the totals accumulator over the fixed delta
  ladder, and `totalsCell` the rendered totals cell.
* The auto-scroll `useEffect` (dependency `[rows.length]`) is modelled as a
  small event-driven state machine with an explicit fire predicate.

String operations are carried out on `List Char` (code points; the data in
scope is ASCII, where this agrees with JavaScript's UTF-16 code-unit view).
-/

set_option maxRecDepth 4000

namespace Premiums

open List

/-- A JavaScript value as it occurs in a premium-row field: a number
(idealised as an exact rational), a string, `null`, or `undefined`.
`undefined` also stands for a missing property. -/
inductive JSVal where
  | num (q : ℚ)
  | str (s : String)
  | null
  | undefined
deriving DecidableEq

/-- A `PremiumRow` object: an association list of (property name, value).
Reading an absent property yields `undefined` (see `jsGet`). -/
abbrev Row := List (String × JSVal)

/-- JavaScript property read `r[k]`: first binding of `k`, else `undefined`. -/
def jsGet (r : Row) (k : String) : JSVal := (r.lookup k).getD .undefined

/-- ASCII lower-casing of one character (`String.prototype.toLowerCase`
restricted to the ASCII range of the data in scope). -/
def lowerChar (c : Char) : Char :=
  if 'A' ≤ c ∧ c ≤ 'Z' then Char.ofNat (c.toNat + 32) else c

/-- Lower-case a character list. -/
def lowerList (cs : List Char) : List Char := cs.map lowerChar

/-- Whitespace recognised by `String.prototype.trim` (ASCII fragment). -/
def isWsChar (c : Char) : Bool := c = ' ' || c = '\t' || c = '\n' || c = '\r'

/-- `String.prototype.trim`: strip leading and trailing whitespace. -/
def trimList (cs : List Char) : List Char :=
  ((cs.dropWhile isWsChar).reverse.dropWhile isWsChar).reverse

/-- Does `hay` start with `needle`? -/
def startsList : List Char → List Char → Bool
  | [], _ => true
  | _ :: _, [] => false
  | a :: as, b :: bs => a = b && startsList as bs

/-- `hay.includes(needle)`: substring containment of character lists. -/
def subList (needle : List Char) : List Char → Bool
  | [] => startsList needle []
  | c :: rest => startsList needle (c :: rest) || subList needle rest

/-- The abstract relational comparison of two JavaScript strings:
lexicographic on code units (code points for the ASCII data in scope). -/
def ltChars : List Char → List Char → Bool
  | [], [] => false
  | [], _ :: _ => true
  | _ :: _, [] => false
  | a :: as, b :: bs =>
    if a.toNat < b.toNat then true
    else if b.toNat < a.toNat then false
    else ltChars as bs

/-- Is `c` a decimal digit? -/
def isDigitChar (c : Char) : Bool := '0' ≤ c && c ≤ '9'

/-- Value of a list of decimal digit characters (most significant first). -/
def digitsToNat (cs : List Char) : Nat :=
  cs.foldl (fun a c => a * 10 + (c.toNat - 48)) 0

/-- Strip an optional leading sign, returning (negative?, rest). -/
def stripSign : List Char → Bool × List Char
  | '-' :: cs => (true, cs)
  | '+' :: cs => (false, cs)
  | cs => (false, cs)

/-- `Number(string)`: the decimal fragment of the ECMAScript
`StringNumericLiteral` grammar — optional whitespace, optional sign, decimal
digits with an optional single decimal point; the empty (or all-whitespace)
string is `0`. Exponents, hex/octal/binary literals and `Infinity`, which the
data in scope never exercises, are outside this fragment. `none` models
`NaN`. -/
def strToNumber (s : String) : Option ℚ :=
  let t := trimList s.data
  if t = [] then some 0
  else
    let (neg, body) := stripSign t
    let ip := body.takeWhile (fun c => c ≠ '.')
    let rest := body.dropWhile (fun c => c ≠ '.')
    match rest with
    | [] =>
      if ip.all isDigitChar ∧ ip ≠ [] then
        some (if neg then -(digitsToNat ip : ℚ) else (digitsToNat ip : ℚ))
      else none
    | _ :: fp =>
      if fp.contains '.' then none
      else if ip.all isDigitChar ∧ fp.all isDigitChar ∧ (ip ≠ [] ∨ fp ≠ []) then
        let mag : ℚ := mkRat (digitsToNat ip * 10 ^ fp.length + digitsToNat fp) (10 ^ fp.length)
        some (if neg then -mag else mag)
      else none

/-- `Number(v)` on a field value; `none` models `NaN`. -/
def toNumber : JSVal → Option ℚ
  | .num q => some q
  | .null => some 0
  | .undefined => none
  | .str s => strToNumber s

/-- Digit character for a value below ten. -/
def digitChar (n : Nat) : Char := Char.ofNat (48 + n)

/-- Decimal digits of `n`, least significant first (fuel-driven). -/
def natDigitsRev (fuel n : Nat) : List Char :=
  match fuel with
  | 0 => []
  | f + 1 => if n < 10 then [digitChar n] else digitChar (n % 10) :: natDigitsRev f (n / 10)

/-- Decimal digits of `n`, most significant first. -/
def natChars (n : Nat) : List Char := (natDigitsRev (n + 1) n).reverse

/-- Insert a comma after every three digits, working on a reversed digit
list (least significant digit first). -/
def group3 : List Char → List Char
  | a :: b :: c :: d :: rest => a :: b :: c :: ',' :: group3 (d :: rest)
  | l => l

/-- Thousands-grouped decimal rendering of a natural number. -/
def groupedNat (n : Nat) : List Char := (group3 (natChars n).reverse).reverse

/-- Left-pad a digit list with zeros to length `k`. -/
def padLeft (k : Nat) (cs : List Char) : List Char :=
  List.replicate (k - cs.length) '0' ++ cs

/-- Drop trailing `'0'` characters. -/
def stripZerosRight (cs : List Char) : List Char :=
  (cs.reverse.dropWhile (fun c => c = '0')).reverse

/-- `|q| * 10^k` rounded half away from zero, as a natural number. -/
def scaledRound (k : Nat) (q : ℚ) : Nat :=
  (q.num.natAbs * 10 ^ k * 2 + q.den) / (2 * q.den)

/-- `n.toLocaleString(undefined, { maximumFractionDigits: maxFrac })` in the
en-US default locale: sign, comma-grouped integer part, and at most
`maxFrac` fraction digits with trailing zeros dropped
(`minimumFractionDigits` defaults to 0). -/
def localeStr (maxFrac : Nat) (q : ℚ) : String :=
  let r := scaledRound maxFrac q
  let ipart := r / 10 ^ maxFrac
  let fpart := r % 10 ^ maxFrac
  let fracDigits := stripZerosRight (padLeft maxFrac (natChars fpart))
  (if q < 0 then "-" else "")
    ++ String.mk (groupedNat ipart)
    ++ (if fracDigits = [] then "" else "." ++ String.mk fracDigits)

/-- `n.toFixed(k)`: sign, ungrouped integer part, and exactly `k` fraction
digits (only ever applied here to the exact two-decimal delta steps, where no
rounding occurs). -/
def toFixedStr (k : Nat) (q : ℚ) : String :=
  let r := scaledRound k q
  let ipart := r / 10 ^ k
  let fpart := r % 10 ^ k
  (if q < 0 then "-" else "")
    ++ String.mk (natChars ipart)
    ++ (if k = 0 then "" else "." ++ String.mk (padLeft k (natChars fpart)))

/-- `String(v)`. The numeric case approximates JavaScript's shortest
round-trip rendering by an exact decimal expansion; it is unreachable in the
formatters and the comparator (a `JSVal.num` always coerces, so `String` is
only ever applied to strings, `null` and `undefined`). -/
def jsStringOf : JSVal → String
  | .str s => s
  | .null => "null"
  | .undefined => "undefined"
  | .num q =>
    if q.den = 1 then (if q < 0 then "-" else "") ++ String.mk (natChars q.num.natAbs)
    else toFixedStr 20 q

/-- `fmt`: empty on nullish or empty-string input; raw string form when
numeric coercion fails; otherwise grouped rendering whose precision depends
on magnitude (a bare `toLocaleString()` call has `maximumFractionDigits`
3, reached only for integral values ≥ 1000 in magnitude). -/
def fmt (v : JSVal) : String :=
  if v = .null ∨ v = .undefined ∨ v = .str "" then ""
  else
    match toNumber v with
    | none => jsStringOf v
    | some n =>
      if 1000 ≤ |n| ∧ n.den = 1 then localeStr 3 n
      else if 100 ≤ |n| then localeStr 2 n
      else localeStr 4 n

/-- `money`: same nullish and coercion-failure handling as `fmt`; on success
a leading dollar sign and at most two fraction digits. -/
def money (v : JSVal) : String :=
  if v = .null ∨ v = .undefined ∨ v = .str "" then ""
  else
    match toNumber v with
    | none => jsStringOf v
    | some n => "$" ++ localeStr 2 n

/-! ## Filter / sort engine -/

instance {ε α : Type} [DecidableEq ε] [DecidableEq α] : DecidableEq (Except ε α) := fun
  | .ok a, .ok b =>
    if h : a = b then .isTrue (h ▸ rfl) else .isFalse (fun hh => h (Except.ok.inj hh))
  | .error a, .error b =>
    if h : a = b then .isTrue (h ▸ rfl) else .isFalse (fun hh => h (Except.error.inj hh))
  | .ok _, .error _ => .isFalse Except.noConfusion
  | .error _, .ok _ => .isFalse Except.noConfusion

/-- The sort direction state (`"asc"` / `"desc"`). -/
inductive SortDir where
  | asc
  | desc
deriving DecidableEq

/-- Lower-case a string (ASCII). -/
def lowerStr (s : String) : String := String.mk (lowerList s.data)

/-- `hay.includes(needle)` on strings. -/
def strIncludes (hay needle : String) : Bool := subList needle.data hay.data

/-- The filter callback `r.symbol?.toLowerCase().includes(q)` for an already
trimmed and lower-cased non-empty `q`. Optional chaining turns a nullish
`symbol` into `undefined` (falsy, so the row is dropped); calling
`toLowerCase` on a numeric `symbol` throws a `TypeError`. -/
def symbolMatches (r : Row) (q : String) : Except String Bool :=
  match jsGet r "symbol" with
  | .null | .undefined => .ok false
  | .str s => .ok (strIncludes (lowerStr s) q)
  | .num _ => .error "TypeError: r.symbol.toLowerCase is not a function"

/-- `rows.filter(p)`: callbacks run left to right, the first exception
propagates. -/
def jsFilter (p : Row → Except String Bool) : List Row → Except String (List Row)
  | [] => .ok []
  | r :: rs =>
    match p r with
    | .error e => .error e
    | .ok b =>
      match jsFilter p rs with
      | .error e => .error e
      | .ok rest => .ok (if b then r :: rest else rest)

/-- The filtering half of the `filteredSorted` memo: trim and lower-case the
query; an empty result is falsy, so the whole row set passes through
unfiltered (and un-copied). -/
def filterStep (rows : List Row) (query : String) : Except String (List Row) :=
  let q := lowerStr (String.mk (trimList query.data))
  if q = "" then .ok rows else jsFilter (fun r => symbolMatches r q) rows

/-- The comparison value the comparator derives from a row: the field named
by the sort key coerced to a number, or its string form when coercion gives
`NaN`. -/
def compVal (k : String) (r : Row) : ℚ ⊕ String :=
  let v := jsGet r k
  match toNumber v with
  | some n => .inl n
  | none => .inr (jsStringOf v)

/-- JavaScript `<` on two comparison values: numeric for two numbers,
lexicographic for two strings, and for a mixed pair the string operand is
converted to a number (yielding `false` when that gives `NaN`). -/
def jsLtVal : ℚ ⊕ String → ℚ ⊕ String → Bool
  | .inl x, .inl y => decide (x < y)
  | .inr x, .inr y => ltChars x.data y.data
  | .inl x, .inr y =>
    match strToNumber y with
    | some r => decide (x < r)
    | none => false
  | .inr x, .inl y =>
    match strToNumber x with
    | some l => decide (l < y)
    | none => false

/-- The page's comparator: `-1`/`1` from the two relational tests, with the
sort direction flipping only the returned sign (`a > b` is `b < a`). -/
def compRows (dir : SortDir) (k : String) (a b : Row) : Int :=
  let ac := compVal k a
  let bc := compVal k b
  if jsLtVal ac bc then (match dir with | .asc => -1 | .desc => 1)
  else if jsLtVal bc ac then (match dir with | .asc => 1 | .desc => -1)
  else 0

/-- "`a` need not go after `b`": the comparator returned at most 0. -/
def sortLe (dir : SortDir) (k : String) (a b : Row) : Bool :=
  compRows dir k a b ≤ 0

/-- Insert `x` into `l` before the first element it need not go after. -/
def ordInsert (le : α → α → Bool) (x : α) : List α → List α
  | [] => [x]
  | y :: ys => if le x y then x :: y :: ys else y :: ordInsert le x ys

/-- A stable insertion sort: a canonical conforming output of
`Array.prototype.sort`. ECMAScript 23.1.3.30 mandates the stable
comparator-sorted permutation exactly when the comparator is consistent on
the elements (there this function is *the* result); for inconsistent
comparators the sort order is implementation-defined, and the full
nondeterministic contract is `jsSortOutcome` below. -/
def insSort (le : α → α → Bool) : List α → List α
  | [] => []
  | x :: xs => ordInsert le x (insSort le xs)

/-- `[...out].sort(comparator)` as its canonical conforming output; see
`insSort` and `jsSortOutcome` for the exact scope of this determinisation. -/
def jsSortStep (dir : SortDir) (k : String) (l : List Row) : List Row :=
  insSort (sortLe dir k) l

/-- ECMAScript's "consistent comparator" requirements (23.1.3.30.1) for the
page's comparator on the elements of `l`: reflexive ties, symmetric ties,
transitive ties, and transitive strict orders in both signs. (The page's
comparator is deterministic, side-effect free and never returns `NaN`, so
those clauses of the definition hold trivially.) -/
abbrev ConsistentOn (dir : SortDir) (k : String) (l : List Row) : Prop :=
  (∀ a ∈ l, compRows dir k a a = 0)
  ∧ (∀ a ∈ l, ∀ b ∈ l, compRows dir k a b = 0 → compRows dir k b a = 0)
  ∧ (∀ a ∈ l, ∀ b ∈ l, ∀ c ∈ l,
      compRows dir k a b = 0 → compRows dir k b c = 0 → compRows dir k a c = 0)
  ∧ (∀ a ∈ l, ∀ b ∈ l, ∀ c ∈ l,
      compRows dir k a b < 0 → compRows dir k b c < 0 → compRows dir k a c < 0)
  ∧ (∀ a ∈ l, ∀ b ∈ l, ∀ c ∈ l,
      0 < compRows dir k a b → 0 < compRows dir k b c → 0 < compRows dir k a c)

/-- The full contract of `[...out].sort(comparator)` (ECMAScript
23.1.3.30): the result is some permutation of the input, and when the
comparator is consistent on the elements it must be the stable
comparator-sorted permutation (the one `jsSortStep` computes); otherwise
the sort order is implementation-defined — an engine may return any
permutation. -/
abbrev jsSortOutcome (dir : SortDir) (k : String) (l out : List Row) : Prop :=
  out.Perm l ∧ (ConsistentOn dir k l → out = jsSortStep dir k l)

/-- The whole `filteredSorted` memo. -/
def filteredSorted (rows : List Row) (query k : String) (dir : SortDir) :
    Except String (List Row) :=
  match filterStep rows query with
  | .error e => .error e
  | .ok out => .ok (jsSortStep dir k out)

/-- `filteredSorted` with the source array tracked: the first component is
what the `rows` array holds afterwards. `filter` allocates a fresh array (or
the binding aliases `rows` when the query is empty), the spread `[...out]`
copies, and `.sort` reorders only that copy — so the source is returned
untouched on every path, including the throwing one. -/
def filteredSortedTrace (rows : List Row) (query k : String) (dir : SortDir) :
    List Row × Except String (List Row) :=
  match filterStep rows query with
  | .error e => (rows, .error e)
  | .ok out =>
    let copy := out
    (rows, .ok (jsSortStep dir k copy))

/-- `toggleSort`: clicking the active key flips the direction, clicking a
new key selects it and resets to ascending. -/
def toggleSort (key : String) (sortKey : String) (dir : SortDir) : String × SortDir :=
  if sortKey = key then (sortKey, match dir with | .asc => .desc | .desc => .asc)
  else (key, .asc)

/-! ## Totals aggregator -/

/-- The fixed delta ladder `0.05, 0.10, …, 0.50` (the float expression
`(i + 1) * 0.05` read as the exact rational it denotes). -/
def DELTAS : List ℚ := (List.range 10).map (fun i => mkRat ((i : Int) + 1) 20)

/-- `d.toFixed(2)`: the canonical key of a delta step. -/
def deltaKey (d : ℚ) : String := toFixedStr 2 d

/-- The net-field name for a delta step: `` `${d.toFixed(2)}N` ``. -/
def netKey (d : ℚ) : String := deltaKey d ++ "N"

/-- `v ?? dflt`. -/
def nullishCoalesce (v dflt : JSVal) : JSVal :=
  match v with
  | .null | .undefined => dflt
  | w => w

/-- One row's contribution to one delta step's running sum:
`Number(r[key] ?? 0)` added when it is not `NaN`, so a missing field or a
failed coercion contributes zero. -/
def netContrib (r : Row) (d : ℚ) : ℚ :=
  match toNumber (nullishCoalesce (jsGet r (netKey d)) (.num 0)) with
  | some val => val
  | none => 0

/-- `totals[key] += v` on the accumulator object (keyed association list;
the key is always present, both it and the accumulator's keys coming from
the same `toFixed(2)` call). -/
def updAdd (key : String) (v : ℚ) : List (String × ℚ) → List (String × ℚ)
  | [] => []
  | (k, x) :: rest => if k = key then (k, x + v) :: rest else (k, x) :: updAdd key v rest

/-- The inner loop: fold one visible row into the accumulator. -/
def addRowTotals (t : List (String × ℚ)) (r : Row) : List (String × ℚ) :=
  DELTAS.foldl (fun t' d => updAdd (deltaKey d) (netContrib r d) t') t

/-- `netTotalsByDelta`: accumulator initialised with a zero for every delta
step, then every visible row folded in. -/
def netTotalsByDelta (visible : List Row) : List (String × ℚ) :=
  visible.foldl addRowTotals (DELTAS.map (fun d => (deltaKey d, 0)))

/-- The rendered totals cell of a delta group:
`money(netTotalsByDelta[d.toFixed(2)] ?? 0)`. -/
def totalsCell (visible : List Row) (d : ℚ) : String :=
  money (.num (((netTotalsByDelta visible).lookup (deltaKey d)).getD 0))

/-! ## Grid presenter: auto-scroll state machine -/

/-- The three external triggers the page reacts to after mount: resolution
of the one-shot data fetch (`some rows` for an array response, `none` for a
failure or non-array response), a query edit, and a sort-header click. -/
inductive GridEvent where
  | fetched (response : Option (List Row))
  | editQuery (s : String)
  | clickSort (k : String)

/-- The page's state. -/
structure GridState where
  rows : List Row
  query : String
  sortKey : String
  sortAsc : Bool

/-- `useState` initial values. -/
def startGridState : GridState := ⟨[], "", "symbol", true⟩

/-- One state transition. -/
def stepGrid (s : GridState) : GridEvent → GridState
  | .fetched (some data) => { s with rows := data }
  | .fetched none => { s with rows := [] }
  | .editQuery q => { s with query := q }
  | .clickSort key =>
    if s.sortKey = key then { s with sortAsc := !s.sortAsc }
    else { s with sortKey := key, sortAsc := true }

/-- The auto-scroll effect has dependency array `[rows.length]`, so it
re-runs exactly when the row count changes, and it returns early (no scroll)
when the row set is empty. -/
def scrollFires (prev next : GridState) : Bool :=
  prev.rows.length ≠ next.rows.length && next.rows.length ≠ 0

/-- How many times the anchor scroll fires along an event trace. -/
def scrollCount (s : GridState) : List GridEvent → Nat
  | [] => 0
  | e :: es =>
    (if scrollFires s (stepGrid s e) then 1 else 0) + scrollCount (stepGrid s e) es

/-- Cumulative width of the three frozen columns (86 + 52 + 39). -/
def STICKY_TOTAL : ℤ := 86 + 52 + 39

/-- The horizontal position the effect scrolls to:
`Math.max(0, target.offsetLeft - STICKY_TOTAL - 8)`. -/
def scrollTargetX (offsetLeft : ℤ) : ℤ := max 0 (offsetLeft - STICKY_TOTAL - 8)

/-- Is the event the resolution of the data fetch? -/
def GridEvent.isFetch : GridEvent → Bool
  | .fetched _ => true
  | _ => false

/-- The two example rows of the end-to-end scenario:
`[{symbol:"AAA", "0.15N": 10}, {symbol:"BBB", "0.15N": 25}]`. -/
def exampleRows : List Row :=
  [[("symbol", .str "AAA"), ("0.15N", .num 10)],
   [("symbol", .str "BBB"), ("0.15N", .num 25)]]

/-! ## Generic facts about the stable sort -/

theorem ordInsert_perm (le : α → α → Bool) (x : α) (l : List α) :
    ordInsert le x l ~ x :: l := by
  induction l with
  | nil => exact List.Perm.refl _
  | cons y ys ih =>
    unfold ordInsert
    by_cases h : le x y
    · simp [h]
    · simp only [h, if_neg, Bool.false_eq_true, not_false_eq_true, ite_false]
      exact (ih.cons y).trans (List.Perm.swap x y ys)

theorem insSort_perm (le : α → α → Bool) (l : List α) : insSort le l ~ l := by
  induction l with
  | nil => exact List.Perm.refl _
  | cons x xs ih => exact (ordInsert_perm le x (insSort le xs)).trans (ih.cons x)

theorem mem_insSort (le : α → α → Bool) (l : List α) (a : α) :
    a ∈ insSort le l ↔ a ∈ l :=
  (insSort_perm le l).mem_iff

theorem sublist_ordInsert (le : α → α → Bool) (x : α) (l : List α) :
    l <+ ordInsert le x l := by
  induction l with
  | nil => exact List.nil_sublist _
  | cons y ys ih =>
    unfold ordInsert
    by_cases h : le x y
    · simp only [h, ite_true]
      exact List.sublist_cons_self x (y :: ys)
    · simp only [h, Bool.false_eq_true, ite_false]
      exact List.cons_sublist_cons.mpr ih

theorem pair_sublist_ordInsert (le : α → α → Bool) {a b : α} {l : List α}
    (hab : le a b = true) (hb : b ∈ l) : [a, b] <+ ordInsert le a l := by
  induction l with
  | nil => cases hb
  | cons y ys ih =>
    unfold ordInsert
    by_cases h : le a y
    · simp only [h, ite_true]
      exact List.cons_sublist_cons.mpr (List.singleton_sublist.mpr hb)
    · simp only [h, Bool.false_eq_true, ite_false]
      rcases List.mem_cons.mp hb with hy | hy
      · exact absurd (hy ▸ hab) (by simpa using h)
      · exact (ih hy).cons y

theorem pair_sublist_insSort (le : α → α → Bool) {a b : α} {l : List α}
    (hab : le a b = true) (h : [a, b] <+ l) : [a, b] <+ insSort le l := by
  induction l with
  | nil => cases h
  | cons x xs ih =>
    cases h with
    | cons _ h' => exact (ih h').trans (sublist_ordInsert le x (insSort le xs))
    | cons₂ _ h' =>
      exact pair_sublist_ordInsert le hab
        ((mem_insSort le xs b).mpr (List.singleton_sublist.mp h'))

theorem pairwise_ordInsert (le : α → α → Bool) (x : α) (l : List α)
    (hl : l.Pairwise (fun a b => le a b = true))
    (htot : ∀ y ∈ l, le x y = true ∨ le y x = true)
    (htr : ∀ y ∈ l, ∀ z ∈ l, le x y = true → le y z = true → le x z = true) :
    (ordInsert le x l).Pairwise (fun a b => le a b = true) := by
  induction l with
  | nil => simp [ordInsert]
  | cons y ys ih =>
    rw [List.pairwise_cons] at hl
    obtain ⟨hy, hys⟩ := hl
    unfold ordInsert
    by_cases h : le x y
    · simp only [h, ite_true]
      refine List.Pairwise.cons ?_ (List.Pairwise.cons hy hys)
      intro z hz
      rcases List.mem_cons.mp hz with hz | hz
      · exact hz ▸ h
      · exact htr y (List.mem_cons_self y ys) z (List.mem_cons_of_mem y hz) h (hy z hz)
    · simp only [h, Bool.false_eq_true, ite_false]
      refine List.Pairwise.cons ?_
        (ih hys (fun y' hy' => htot y' (List.mem_cons_of_mem y hy'))
          (fun y' hy' z hz => htr y' (List.mem_cons_of_mem y hy') z (List.mem_cons_of_mem y hz)))
      intro z hz
      have hz' := ((ordInsert_perm le x ys).mem_iff).mp hz
      rcases List.mem_cons.mp hz' with hz' | hz'
      · subst hz'
        rcases htot y (List.mem_cons_self y ys) with h' | h'
        · exact absurd h' (by simpa using h)
        · exact h'
      · exact hy z hz'

theorem pairwise_insSort (le : α → α → Bool) (l : List α)
    (htot : ∀ a ∈ l, ∀ b ∈ l, le a b = true ∨ le b a = true)
    (htr : ∀ a ∈ l, ∀ b ∈ l, ∀ c ∈ l, le a b = true → le b c = true → le a c = true) :
    (insSort le l).Pairwise (fun a b => le a b = true) := by
  induction l with
  | nil => simp [insSort]
  | cons x xs ih =>
    unfold insSort
    have hmem : ∀ y ∈ insSort le xs, y ∈ x :: xs := by
      intro y hy
      exact List.mem_cons_of_mem x ((mem_insSort le xs y).mp hy)
    refine pairwise_ordInsert le x (insSort le xs) ?_ ?_ ?_
    · exact ih
        (fun a ha b hb => htot a (List.mem_cons_of_mem x ha) b (List.mem_cons_of_mem x hb))
        (fun a ha b hb c hc => htr a (List.mem_cons_of_mem x ha) b (List.mem_cons_of_mem x hb)
          c (List.mem_cons_of_mem x hc))
    · intro y hy
      exact htot x (List.mem_cons_self x xs) y (hmem y hy)
    · intro y hy z hz
      exact htr x (List.mem_cons_self x xs) y (hmem y hy) z (hmem z hz)

/-! ## Facts about `jsFilter` -/

theorem jsFilter_ok_sublist (p : Row → Except String Bool) :
    ∀ {l out : List Row}, jsFilter p l = .ok out → out <+ l := by
  intro l
  induction l with
  | nil => intro out h; cases h; exact List.Sublist.refl _
  | cons r rs ih =>
    intro out h
    unfold jsFilter at h
    cases hp : p r with
    | error e => rw [hp] at h; cases h
    | ok b =>
      rw [hp] at h
      cases hrest : jsFilter p rs with
      | error e => rw [hrest] at h; cases h
      | ok rest =>
        rw [hrest] at h
        cases h
        by_cases hb : b
        · subst hb; simp only [ite_true]; exact List.cons_sublist_cons.mpr (ih hrest)
        · simp only [Bool.not_eq_true] at hb
          subst hb
          simp only [Bool.false_eq_true, ite_false]
          exact (ih hrest).cons r

theorem jsFilter_ok_mem (p : Row → Except String Bool) :
    ∀ {l out : List Row}, jsFilter p l = .ok out → ∀ r ∈ out, p r = .ok true := by
  intro l
  induction l with
  | nil => intro out h r hr; cases h; cases hr
  | cons r0 rs ih =>
    intro out h r hr
    unfold jsFilter at h
    cases hp : p r0 with
    | error e => rw [hp] at h; cases h
    | ok b =>
      rw [hp] at h
      cases hrest : jsFilter p rs with
      | error e => rw [hrest] at h; cases h
      | ok rest =>
        rw [hrest] at h
        cases h
        by_cases hb : b
        · subst hb
          simp only [ite_true] at hr
          rcases List.mem_cons.mp hr with hr | hr
          · exact hr ▸ hp
          · exact ih hrest r hr
        · simp only [Bool.not_eq_true] at hb
          subst hb
          simp only [Bool.false_eq_true, ite_false] at hr
          exact ih hrest r hr

theorem jsFilter_error_iff (p : Row → Except String Bool) :
    ∀ (l : List Row), (∃ e, jsFilter p l = .error e) ↔ ∃ r ∈ l, ∃ e, p r = .error e := by
  intro l
  induction l with
  | nil => simp [jsFilter]
  | cons r0 rs ih =>
    constructor
    · rintro ⟨e, h⟩
      unfold jsFilter at h
      cases hp : p r0 with
      | error e' => exact ⟨r0, List.mem_cons_self r0 rs, e', hp⟩
      | ok b =>
        rw [hp] at h
        cases hrest : jsFilter p rs with
        | error e' =>
          obtain ⟨r, hr, he⟩ := ih.mp ⟨e', hrest⟩
          exact ⟨r, List.mem_cons_of_mem r0 hr, he⟩
        | ok rest => rw [hrest] at h; cases h
    · rintro ⟨r, hr, e, he⟩
      rcases List.mem_cons.mp hr with hr | hr
      · subst hr
        exact ⟨e, by unfold jsFilter; rw [he]⟩
      · obtain ⟨e', h'⟩ := ih.mpr ⟨r, hr, e, he⟩
        unfold jsFilter
        cases hp : p r0 with
        | error e0 => exact ⟨e0, rfl⟩
        | ok b => exact ⟨e', by rw [h']⟩

theorem jsFilter_all_true (p : Row → Except String Bool) :
    ∀ {l : List Row}, (∀ r ∈ l, p r = .ok true) → jsFilter p l = .ok l := by
  intro l
  induction l with
  | nil => intro _; rfl
  | cons r rs ih =>
    intro h
    unfold jsFilter
    rw [h r (List.mem_cons_self r rs), ih (fun r' hr' => h r' (List.mem_cons_of_mem r hr'))]
    simp

/-! ## Order facts about the string comparison -/

theorem ltChars_tri : ∀ (a b : List Char), ltChars a b = true ∨ ltChars b a = true ∨ a = b
  | [], [] => Or.inr (Or.inr rfl)
  | [], _ :: _ => Or.inl rfl
  | _ :: _, [] => Or.inr (Or.inl rfl)
  | a :: as, b :: bs => by
    rcases Nat.lt_trichotomy a.toNat b.toNat with h | h | h
    · left; simp [ltChars, h]
    · have hab : a = b := Char.ext (UInt32.toNat.inj h)
      subst hab
      rcases ltChars_tri as bs with h1 | h1 | h1
      · left; simp [ltChars, h1]
      · right; left; simp [ltChars, h1]
      · right; right; rw [h1]
    · right; left; simp [ltChars, h]

theorem ltChars_asymm : ∀ {a b : List Char}, ltChars a b = true → ltChars b a = false
  | [], [], h => by cases h
  | [], _ :: _, _ => rfl
  | _ :: _, [], h => by cases h
  | a :: as, b :: bs, h => by
    unfold ltChars at h ⊢
    by_cases h1 : a.toNat < b.toNat
    · have h2 : ¬ b.toNat < a.toNat := Nat.lt_asymm h1
      simp [h1, h2]
    · by_cases h2 : b.toNat < a.toNat
      · simp [h1, h2] at h
      · simp only [h1, h2, ite_false] at h ⊢
        exact ltChars_asymm h

theorem ltChars_trans : ∀ {a b c : List Char},
    ltChars a b = true → ltChars b c = true → ltChars a c = true
  | [], [], _, h1, _ => by cases h1
  | [], _ :: _, [], _, h2 => by cases h2
  | [], _ :: _, _ :: _, _, _ => rfl
  | _ :: _, [], _, h1, _ => by cases h1
  | _ :: _, _ :: _, [], _, h2 => by cases h2
  | a :: as, b :: bs, c :: cs, h1, h2 => by
    unfold ltChars at h1 h2 ⊢
    by_cases hab : a.toNat < b.toNat
    · by_cases hbc : b.toNat < c.toNat
      · simp [Nat.lt_trans hab hbc]
      · by_cases hcb : c.toNat < b.toNat
        · simp [hbc, hcb] at h2
        · have : b.toNat = c.toNat := Nat.le_antisymm (Nat.not_lt.mp hcb) (Nat.not_lt.mp hbc)
          simp [this ▸ hab]
    · by_cases hba : b.toNat < a.toNat
      · simp [hab, hba] at h1
      · have heq : a.toNat = b.toNat := Nat.le_antisymm (Nat.not_lt.mp hba) (Nat.not_lt.mp hab)
        simp only [hab, hba, ite_false] at h1
        by_cases hbc : b.toNat < c.toNat
        · simp [heq ▸ hbc]
        · by_cases hcb : c.toNat < b.toNat
          · simp [hbc, hcb] at h2
          · simp only [hbc, hcb, ite_false] at h2
            have hac : ¬ a.toNat < c.toNat := heq ▸ hbc
            have hca : ¬ c.toNat < a.toNat := heq ▸ hcb
            simp only [hac, hca, ite_false]
            exact ltChars_trans h1 h2

/-! ## Comparator characterisations -/

theorem stringDataInj {s t : String} (h : s.data = t.data) : s = t := by
  cases s with | mk d1 => cases t with | mk d2 =>
  cases (show d1 = d2 from h)
  rfl

theorem compRows_desc_neg (k : String) (a b : Row) :
    compRows SortDir.desc k a b = -compRows SortDir.asc k a b := by
  simp only [compRows]
  by_cases h1 : jsLtVal (compVal k a) (compVal k b) = true
  · simp [h1]
  · by_cases h2 : jsLtVal (compVal k b) (compVal k a) = true
    · simp [h1, h2]
    · simp [h1, h2]

theorem sortLe_asc_inl {k : String} {a b : Row} {x y : ℚ}
    (hx : compVal k a = .inl x) (hy : compVal k b = .inl y) :
    sortLe SortDir.asc k a b = true ↔ x ≤ y := by
  simp only [sortLe, compRows, hx, hy, jsLtVal, decide_eq_true_eq]
  by_cases h1 : x < y
  · simp [h1, h1.le]
  · by_cases h2 : y < x
    · simp [h1, h2, not_le.mpr h2]
    · simp [h1, h2, not_lt.mp h2]

theorem sortLe_desc_inl {k : String} {a b : Row} {x y : ℚ}
    (hx : compVal k a = .inl x) (hy : compVal k b = .inl y) :
    sortLe SortDir.desc k a b = true ↔ y ≤ x := by
  simp only [sortLe, compRows, hx, hy, jsLtVal, decide_eq_true_eq]
  by_cases h1 : x < y
  · simp [h1, not_le.mpr h1]
  · by_cases h2 : y < x
    · simp [h1, h2, h2.le]
    · simp [h1, h2, not_lt.mp h1]

theorem sortLe_asc_inr {k : String} {a b : Row} {s t : String}
    (hx : compVal k a = .inr s) (hy : compVal k b = .inr t) :
    sortLe SortDir.asc k a b = true ↔ ltChars t.data s.data = false := by
  simp only [sortLe, compRows, hx, hy, jsLtVal, decide_eq_true_eq]
  by_cases h1 : ltChars s.data t.data = true
  · simp [h1, ltChars_asymm h1]
  · by_cases h2 : ltChars t.data s.data = true
    · simp [h1, h2]
    · simp only [Bool.not_eq_true] at h1 h2
      simp [h1, h2]

theorem sortLe_desc_inr {k : String} {a b : Row} {s t : String}
    (hx : compVal k a = .inr s) (hy : compVal k b = .inr t) :
    sortLe SortDir.desc k a b = true ↔ ltChars s.data t.data = false := by
  simp only [sortLe, compRows, hx, hy, jsLtVal, decide_eq_true_eq]
  by_cases h1 : ltChars s.data t.data = true
  · simp [h1]
  · by_cases h2 : ltChars t.data s.data = true
    · simp only [Bool.not_eq_true] at h1
      simp [h1, h2]
    · simp only [Bool.not_eq_true] at h1 h2
      simp [h1, h2]

theorem reversal_core {k : String} {rows : List Row}
    (hanti : ∀ a b, a ∈ rows → b ∈ rows →
      sortLe SortDir.asc k a b = true → sortLe SortDir.desc k a b = true →
      compVal k a = compVal k b)
    (ha : (jsSortStep SortDir.asc k rows).Pairwise (fun a b => sortLe SortDir.asc k a b = true))
    (hd : (jsSortStep SortDir.desc k rows).Pairwise (fun a b => sortLe SortDir.desc k a b = true)) :
    ∀ (i j i' j' : ℕ) (a b : Row),
      (jsSortStep SortDir.asc k rows)[i]? = some a →
      (jsSortStep SortDir.asc k rows)[j]? = some b → i < j →
      compVal k a ≠ compVal k b →
      (jsSortStep SortDir.desc k rows)[i']? = some a →
      (jsSortStep SortDir.desc k rows)[j']? = some b →
      j' < i' := by
  intro i j i' j' a b hia hjb hij hne hia' hjb'
  obtain ⟨hi, hgi⟩ := List.getElem?_eq_some.mp hia
  obtain ⟨hj, hgj⟩ := List.getElem?_eq_some.mp hjb
  obtain ⟨hi', hgi'⟩ := List.getElem?_eq_some.mp hia'
  obtain ⟨hj', hgj'⟩ := List.getElem?_eq_some.mp hjb'
  have hle : sortLe SortDir.asc k a b = true := by
    have h := (List.pairwise_iff_getElem.mp ha) i j hi hj hij
    rwa [hgi, hgj] at h
  have hamem : a ∈ rows := by
    have h : a ∈ jsSortStep SortDir.asc k rows := hgi ▸ List.getElem_mem hi
    exact ((insSort_perm (sortLe SortDir.asc k) rows).mem_iff).mp h
  have hbmem : b ∈ rows := by
    have h : b ∈ jsSortStep SortDir.asc k rows := hgj ▸ List.getElem_mem hj
    exact ((insSort_perm (sortLe SortDir.asc k) rows).mem_iff).mp h
  rcases Nat.lt_trichotomy j' i' with h | h | h
  · exact h
  · exfalso
    subst h
    have hab : a = b := by rw [← hgi', hgj']
    exact hne (hab ▸ rfl)
  · exfalso
    have hled : sortLe SortDir.desc k a b = true := by
      have hh := (List.pairwise_iff_getElem.mp hd) i' j' hi' hj' h
      rwa [hgi', hgj'] at hh
    exact hne (hanti a b hamem hbmem hle hled)

/-! ## Facts about the totals accumulator -/

theorem map_fst_updAdd (key : String) (v : ℚ) :
    ∀ t : List (String × ℚ), (updAdd key v t).map Prod.fst = t.map Prod.fst
  | [] => rfl
  | (k, x) :: rest => by
    unfold updAdd
    by_cases h : k = key
    · simp [h]
    · simp [h, map_fst_updAdd key v rest]

theorem lookup_updAdd_eq (key : String) (v : ℚ) :
    ∀ t : List (String × ℚ), (updAdd key v t).lookup key = (t.lookup key).map (· + v)
  | [] => rfl
  | (k, x) :: rest => by
    unfold updAdd
    by_cases h : k = key
    · subst h
      simp [List.lookup_cons]
    · have hb : (key == k) = false := beq_eq_false_iff_ne.mpr (Ne.symm h)
      simp [h, List.lookup_cons, hb, lookup_updAdd_eq key v rest]

theorem lookup_updAdd_ne (key k' : String) (v : ℚ) (hne : k' ≠ key) :
    ∀ t : List (String × ℚ), (updAdd key v t).lookup k' = t.lookup k'
  | [] => rfl
  | (k, x) :: rest => by
    unfold updAdd
    by_cases h : k = key
    · have hb : (k' == key) = false := beq_eq_false_iff_ne.mpr hne
      simp [h, List.lookup_cons, hb]
    · by_cases h2 : k' = k
      · subst h2
        simp [h, List.lookup_cons]
      · have hb : (k' == k) = false := beq_eq_false_iff_ne.mpr h2
        simp [h, List.lookup_cons, hb, lookup_updAdd_ne key k' v hne rest]

theorem lookup_foldl_updAdd (fk : ℚ → String) (c : ℚ → ℚ) (K : String) :
    ∀ (ds : List ℚ) (t : List (String × ℚ)),
      ((ds.foldl (fun t' d => updAdd (fk d) (c d) t') t).lookup K)
        = (t.lookup K).map (· + ((ds.filter (fun d => fk d = K)).map c).sum)
  | [], t => by cases hh : t.lookup K <;> simp [hh]
  | d :: ds, t => by
    simp only [List.foldl_cons, List.filter_cons]
    by_cases h : fk d = K
    · rw [h, lookup_foldl_updAdd fk c K ds (updAdd K (c d) t), lookup_updAdd_eq K (c d) t]
      simp only [h, ite_true, List.map_cons, List.sum_cons, decide_True, eq_self_iff_true]
      cases hh : t.lookup K <;> simp [hh, add_assoc]
    · rw [lookup_foldl_updAdd fk c K ds _, lookup_updAdd_ne (fk d) K (c d) (fun hh => h hh.symm)]
      simp [h]

theorem map_fst_foldl_updAdd (fk : ℚ → String) (c : ℚ → ℚ) :
    ∀ (ds : List ℚ) (t : List (String × ℚ)),
      ((ds.foldl (fun t' d => updAdd (fk d) (c d) t') t).map Prod.fst) = t.map Prod.fst
  | [], _ => rfl
  | d :: ds, t => by
    simp only [List.foldl_cons]
    rw [map_fst_foldl_updAdd fk c ds _, map_fst_updAdd]

theorem lookup_addRowTotals (t : List (String × ℚ)) (r : Row) (K : String) :
    (addRowTotals t r).lookup K
      = (t.lookup K).map
          (· + ((DELTAS.filter (fun d => deltaKey d = K)).map (netContrib r)).sum) :=
  lookup_foldl_updAdd deltaKey (netContrib r) K DELTAS t

theorem lookup_foldl_addRow (K : String) :
    ∀ (rows : List Row) (t : List (String × ℚ)),
      ((rows.foldl addRowTotals t).lookup K)
        = (t.lookup K).map
            (· + (rows.map
              (fun r => ((DELTAS.filter (fun d => deltaKey d = K)).map (netContrib r)).sum)).sum)
  | [], t => by cases hh : t.lookup K <;> simp [hh]
  | r :: rows, t => by
    simp only [List.foldl_cons, List.map_cons, List.sum_cons]
    rw [lookup_foldl_addRow K rows (addRowTotals t r), lookup_addRowTotals]
    cases hh : t.lookup K <;> simp [hh, add_assoc]

theorem map_fst_netTotals (visible : List Row) :
    (netTotalsByDelta visible).map Prod.fst = DELTAS.map deltaKey := by
  unfold netTotalsByDelta
  have h : ∀ (rows : List Row) (t : List (String × ℚ)),
      ((rows.foldl addRowTotals t).map Prod.fst) = t.map Prod.fst := by
    intro rows
    induction rows with
    | nil => intro t; rfl
    | cons r rows ih =>
      intro t
      simp only [List.foldl_cons]
      rw [ih (addRowTotals t r)]
      exact map_fst_foldl_updAdd deltaKey (netContrib r) DELTAS t
  rw [h]
  simp [List.map_map, Function.comp]

theorem deltaKey_filter_self :
    ∀ d ∈ DELTAS, DELTAS.filter (fun d' => deltaKey d' = deltaKey d) = [d] := by
  with_unfolding_all decide

theorem lookup_init_self :
    ∀ d ∈ DELTAS,
      ((DELTAS.map (fun d' => (deltaKey d', (0 : ℚ)))).lookup (deltaKey d)) = some 0 := by
  with_unfolding_all decide

theorem lookup_netTotals (visible : List Row) (d : ℚ) (hd : d ∈ DELTAS) :
    (netTotalsByDelta visible).lookup (deltaKey d)
      = some ((visible.map (fun r => netContrib r d)).sum) := by
  unfold netTotalsByDelta
  rw [lookup_foldl_addRow (deltaKey d) visible _, lookup_init_self d hd]
  simp only [Option.map_some', deltaKey_filter_self d hd, List.map_cons, List.map_nil,
    List.sum_cons, List.sum_nil, zero_add, add_zero]

/-! ## Facts about the auto-scroll state machine -/

theorem rows_stepGrid_nonfetch (s : GridState) (e : GridEvent) (h : e.isFetch = false) :
    (stepGrid s e).rows = s.rows := by
  cases e with
  | fetched r => cases h
  | editQuery q => rfl
  | clickSort key =>
    unfold stepGrid
    by_cases hk : s.sortKey = key <;> simp [hk]

theorem rows_stepGrid_fetch (s : GridState) (d : Option (List Row)) :
    (stepGrid s (.fetched d)).rows = d.getD [] := by
  cases d <;> rfl

theorem scrollFires_nonfetch (s : GridState) (e : GridEvent) (h : e.isFetch = false) :
    scrollFires s (stepGrid s e) = false := by
  unfold scrollFires
  rw [rows_stepGrid_nonfetch s e h]
  simp

theorem scrollCount_nonfetch :
    ∀ (es : List GridEvent) (s : GridState),
      (∀ e ∈ es, e.isFetch = false) → scrollCount s es = 0
  | [], _, _ => rfl
  | e :: es, s, h => by
    unfold scrollCount
    rw [scrollFires_nonfetch s e (h e (List.mem_cons_self e es))]
    simp only [Bool.false_eq_true, ite_false, zero_add]
    exact scrollCount_nonfetch es _ (fun e' he' => h e' (List.mem_cons_of_mem e he'))

theorem scrollCount_one_fetch :
    ∀ (pre : List GridEvent) (s : GridState), s.rows = [] →
      (∀ e ∈ pre, e.isFetch = false) →
      ∀ (post : List GridEvent), (∀ e ∈ post, e.isFetch = false) →
      ∀ (d : Option (List Row)),
        scrollCount s (pre ++ .fetched d :: post)
          = if (d.getD []).length = 0 then 0 else 1
  | [], s, hrows, _, post, hpost, d => by
    simp only [List.nil_append, scrollCount]
    rw [scrollCount_nonfetch post _ hpost]
    unfold scrollFires
    rw [rows_stepGrid_fetch s d, hrows]
    by_cases h : (d.getD []).length = 0
    · simp [h]
    · simp [h, Ne.symm h]
  | e :: pre, s, hrows, hpre, post, hpost, d => by
    simp only [List.cons_append, scrollCount]
    rw [scrollFires_nonfetch s e (hpre e (List.mem_cons_self e pre))]
    simp only [Bool.false_eq_true, ite_false, zero_add]
    exact scrollCount_one_fetch pre (stepGrid s e)
      ((rows_stepGrid_nonfetch s e (hpre e (List.mem_cons_self e pre))).trans hrows)
      (fun e' he' => hpre e' (List.mem_cons_of_mem e he')) post hpost d

/-! ## Facts about the formatters -/

theorem localeStr_int (q : ℚ) (k : Nat) (hden : q.den = 1) (hpos : 0 ≤ q) :
    localeStr k q = String.mk (groupedNat q.num.natAbs) := by
  simp only [localeStr, scaledRound, hden, mul_one]
  have h2 : (q.num.natAbs * 10 ^ k * 2 + 1) / 2 = q.num.natAbs * 10 ^ k := by omega
  rw [h2]
  have hip : q.num.natAbs * 10 ^ k / 10 ^ k = q.num.natAbs :=
    Nat.mul_div_cancel _ (pow_pos (by norm_num) k)
  have hfp : q.num.natAbs * 10 ^ k % 10 ^ k = 0 := Nat.mul_mod_left _ _
  rw [hip, hfp]
  have h0 : natChars 0 = ['0'] := by decide
  have hzeros : stripZerosRight (padLeft k ['0']) = [] := by
    unfold stripZerosRight
    rw [List.dropWhile_eq_nil_iff.mpr ?_]
    · rfl
    · intro x hx
      have hx' : x ∈ padLeft k ['0'] := List.mem_reverse.mp hx
      unfold padLeft at hx'
      rcases List.mem_append.mp hx' with hx' | hx'
      · simp [List.eq_of_mem_replicate hx']
      · simp [List.mem_singleton.mp hx']
  rw [h0, hzeros]
  have hneg : ¬ q < 0 := not_lt.mpr hpos
  simp [hneg]

theorem fmt_num_eq (q : ℚ) :
    fmt (.num q)
      = if 1000 ≤ |q| ∧ q.den = 1 then localeStr 3 q
        else if 100 ≤ |q| then localeStr 2 q
        else localeStr 4 q := by
  unfold fmt
  rw [if_neg (by simp)]
  rfl

theorem money_coerced (v : JSVal) (q : ℚ)
    (h1 : v ≠ .null) (h2 : v ≠ .undefined) (h3 : v ≠ .str "")
    (hq : toNumber v = some q) : money v = "$" ++ localeStr 2 q := by
  unfold money
  rw [if_neg (by simp [h1, h2, h3])]
  simp [hq]

/-- C6: `fmt` is empty on nullish and empty-string input, echoes the raw
string when numeric coercion fails, and for numbers formats by magnitude
tier — integral values of magnitude ≥ 1000 render grouped with no decimals
(last conjunct before the examples), magnitude ≥ 100 gets at most 2 fraction
digits, anything else at most 4; the spec's five examples compute as
claimed. -/
theorem fmt_spec :
    fmt .null = "" ∧ fmt .undefined = "" ∧ fmt (.str "") = ""
    ∧ (∀ s : String, strToNumber s = none → fmt (.str s) = s)
    ∧ (∀ q : ℚ, fmt (.num q)
        = if 1000 ≤ |q| ∧ q.den = 1 then localeStr 3 q
          else if 100 ≤ |q| then localeStr 2 q
          else localeStr 4 q)
    ∧ (∀ (q : ℚ) (k : Nat), q.den = 1 → 0 ≤ q →
        localeStr k q = String.mk (groupedNat q.num.natAbs))
    ∧ fmt (.num 1500) = "1,500"
    ∧ fmt (.num (mkRat 751 5)) = "150.2"
    ∧ fmt (.num (mkRat 123456 100000)) = "1.2346"
    ∧ fmt (.str "abc") = "abc" := by
  refine ⟨rfl, rfl, rfl, ?_, fmt_num_eq, fun q k h1 h2 => localeStr_int q k h1 h2,
    ?_, ?_, ?_, ?_⟩
  · intro s hs
    unfold fmt
    by_cases h : s = ""
    · subst h
      exact absurd hs (by with_unfolding_all decide)
    · rw [if_neg (by simp [h])]
      simp [toNumber, hs, jsStringOf]
  · with_unfolding_all decide
  · with_unfolding_all decide
  · with_unfolding_all decide
  · with_unfolding_all decide

/-- C6 witness: the coercion-failure conjunct of `fmt_spec` applied to the
concrete string `"abc"`. -/
theorem fmt_spec_witness : fmt (.str "abc") = "abc" ∧ localeStr 3 (1500 : ℚ) = String.mk (groupedNat (1500 : ℚ).num.natAbs) :=
  ⟨fmt_spec.2.2.2.1 "abc" (by with_unfolding_all decide),
   fmt_spec.2.2.2.2.2.1 1500 3 (by with_unfolding_all decide) (by with_unfolding_all decide)⟩

/-- C1 (counterexample): the claim asserts `money(1234.5) = "$1,234.50"` and
that a net sum of 35 renders as `"$35.00"`; the page's `money` sets only
`maximumFractionDigits`, so it never pads with trailing zeros and actually
renders `"$1,234.5"` and `"$35"`. -/
theorem money_padding_cex :
    money (.num (mkRat 2469 2)) = "$1,234.5"
    ∧ money (.num (mkRat 2469 2)) ≠ "$1,234.50"
    ∧ totalsCell exampleRows (mkRat 3 20) = "$35"
    ∧ totalsCell exampleRows (mkRat 3 20) ≠ "$35.00" := by
  with_unfolding_all decide

/-- C1 (amended): `money` is empty on nullish and empty-string input, echoes
the raw string when coercion fails, and for every value that coerces to a
number renders `"$"` followed by the en-US grouping with at most (not
exactly) two fraction digits; so `money(1234.5) = "$1,234.5"`,
`money(null) = ""`, and the rendered totals cell for the 0.15 group of the
two example rows (net sum 35) shows `"$35"`. -/
theorem money_renders_spec :
    money .null = "" ∧ money .undefined = "" ∧ money (.str "") = ""
    ∧ (∀ (v : JSVal) (q : ℚ), v ≠ .null → v ≠ .undefined → v ≠ .str "" →
        toNumber v = some q → money v = "$" ++ localeStr 2 q)
    ∧ money (.num (mkRat 2469 2)) = "$1,234.5"
    ∧ ((netTotalsByDelta exampleRows).lookup "0.15") = some 35
    ∧ totalsCell exampleRows (mkRat 3 20) = "$35" := by
  refine ⟨rfl, rfl, rfl, money_coerced, ?_, ?_, ?_⟩
  · with_unfolding_all decide
  · with_unfolding_all decide
  · with_unfolding_all decide

/-- C1 witness: the coercion conjunct of `money_renders_spec` applied to the
concrete value 7. -/
theorem money_renders_spec_witness : money (.num 7) = "$" ++ localeStr 2 7 :=
  money_renders_spec.2.2.2.1 (.num 7) 7 (by with_unfolding_all decide)
    (by with_unfolding_all decide) (by with_unfolding_all decide)
    (by with_unfolding_all decide)

/-! ## Claims about the filter -/

theorem subList_nil : ∀ l : List Char, subList [] l = true
  | [] => rfl
  | _ :: rest => by
    unfold subList
    rw [subList_nil rest]
    rfl

theorem strIncludes_empty (hay : String) : strIncludes hay "" = true :=
  subList_nil hay.data

theorem symbolMatches_symbol_only (r r' : Row) (q' : String)
    (h : jsGet r "symbol" = jsGet r' "symbol") :
    symbolMatches r q' = symbolMatches r' q' := by
  unfold symbolMatches
  rw [h]

theorem symbolMatches_of_str {r : Row} {s : String} (q' : String)
    (hs : jsGet r "symbol" = .str s) :
    symbolMatches r q' = .ok (strIncludes (lowerStr s) q') := by
  unfold symbolMatches
  rw [hs]

theorem symbolMatches_error_iff (r : Row) (q' : String) :
    (∃ e, symbolMatches r q' = .error e) ↔ ∃ x : ℚ, jsGet r "symbol" = .num x := by
  unfold symbolMatches
  cases h : jsGet r "symbol" with
  | num x =>
    simp only [h]
    exact ⟨fun _ => ⟨x, rfl⟩, fun _ => ⟨_, rfl⟩⟩
  | str s => simp [h]
  | null => simp [h]
  | undefined => simp [h]

/-- C2 (counterexample): for the single row `{symbol:"xaby"}` and the query
`" ab "`, the filter keeps the row (it matches the trimmed query `"ab"`),
yet the row's symbol does not contain the query `" ab "` itself as a
case-insensitive substring — the claim's containment property fails for
untrimmed queries. -/
theorem filter_untrimmed_query_cex :
    filterStep [[("symbol", JSVal.str "xaby")]] " ab "
      = .ok [[("symbol", JSVal.str "xaby")]]
    ∧ strIncludes (lowerStr "xaby") (lowerStr " ab ") = false := by
  with_unfolding_all decide

/-- C2 (amended): over rows whose `symbol` is a string, the filter step
succeeds and returns a subsequence of the input in which every row's symbol
contains the trimmed query as a case-insensitive substring; a query that
trims to empty passes the whole row set through unchanged; and membership
depends on no field other than `symbol`. -/
theorem filter_spec :
    ∀ (rows : List Row) (query : String),
      (∀ r ∈ rows, ∃ s : String, jsGet r "symbol" = .str s) →
      ∃ out, filterStep rows query = .ok out
        ∧ out <+ rows
        ∧ (∀ r ∈ out, ∀ s : String, jsGet r "symbol" = .str s →
            strIncludes (lowerStr s) (lowerStr (String.mk (trimList query.data))) = true)
        ∧ (trimList query.data = [] → out = rows)
        ∧ (∀ (r r' : Row) (q' : String), jsGet r "symbol" = jsGet r' "symbol" →
            symbolMatches r q' = symbolMatches r' q') := by
  intro rows query hsym
  by_cases hq : lowerStr (String.mk (trimList query.data)) = ""
  · refine ⟨rows, ?_, List.Sublist.refl rows, ?_, fun _ => rfl, symbolMatches_symbol_only⟩
    · simp only [filterStep]
      rw [if_pos hq]
    · intro r _ s _
      rw [hq]
      exact strIncludes_empty _
  · cases hres : jsFilter (fun r => symbolMatches r (lowerStr (String.mk (trimList query.data)))) rows with
    | error e =>
      exfalso
      obtain ⟨r, hr, e', he⟩ := (jsFilter_error_iff _ rows).mp ⟨e, hres⟩
      obtain ⟨s, hs⟩ := hsym r hr
      rw [symbolMatches_of_str _ hs] at he
      cases he
    | ok out =>
      refine ⟨out, ?_, jsFilter_ok_sublist _ hres, ?_, ?_, symbolMatches_symbol_only⟩
      · simp only [filterStep]
        rw [if_neg hq, hres]
      · intro r hrout s hs
        have hm := jsFilter_ok_mem _ hres r hrout
        rw [symbolMatches_of_str _ hs] at hm
        exact Except.ok.inj hm
      · intro htrim
        exact absurd (by rw [htrim]; rfl) hq

/-- C2 witness: `filter_spec` applied to a concrete one-row set and the
query `"a"`. -/
theorem filter_spec_witness :
    ∃ out, filterStep [[("symbol", JSVal.str "AAA")]] "a" = .ok out
      ∧ out <+ [[("symbol", JSVal.str "AAA")]]
      ∧ (∀ r ∈ out, ∀ s : String, jsGet r "symbol" = .str s →
          strIncludes (lowerStr s) (lowerStr (String.mk (trimList ("a" : String).data))) = true)
      ∧ (trimList ("a" : String).data = [] → out = [[("symbol", JSVal.str "AAA")]])
      ∧ (∀ (r r' : Row) (q' : String), jsGet r "symbol" = jsGet r' "symbol" →
          symbolMatches r q' = symbolMatches r' q') :=
  filter_spec [[("symbol", JSVal.str "AAA")]] "a"
    (fun r hr => by
      rcases List.mem_singleton.mp hr with rfl
      exact ⟨"AAA", by with_unfolding_all decide⟩)

/-! ## Claims about totality and the throwing path -/

/-- C8 (counterexample): a row whose `symbol` holds a number makes the
engine throw: with the non-empty query `"a"`, `filteredSorted` raises a
`TypeError` (calling `toLowerCase` on a number) instead of absorbing the
malformed value. -/
theorem engine_numeric_symbol_throws_cex :
    filteredSorted [[("symbol", JSVal.num 42)]] "a" "symbol" SortDir.asc
      = .error "TypeError: r.symbol.toLowerCase is not a function" := by
  with_unfolding_all decide

/-- C8 (amended): the formatters, comparator, sort and totals are total over
the whole value domain, and the only exception the engine can raise is
precisely characterised: `filteredSorted` throws iff the trimmed query is
non-empty and some row's `symbol` holds a number (a non-string, non-nullish
value); in particular the totals accumulator is defined — with its full key
set — for arbitrary malformed rows. -/
theorem engine_throw_boundary_spec :
    (∀ (rows : List Row) (query k : String) (dir : SortDir),
      (∃ e, filteredSorted rows query k dir = .error e) ↔
        (lowerStr (String.mk (trimList query.data)) ≠ ""
          ∧ ∃ r ∈ rows, ∃ x : ℚ, jsGet r "symbol" = .num x))
    ∧ (∀ visible : List Row,
        (netTotalsByDelta visible).map Prod.fst = DELTAS.map deltaKey) := by
  constructor
  · intro rows query k dir
    have hstep : (∃ e, filteredSorted rows query k dir = .error e)
        ↔ (∃ e, filterStep rows query = .error e) := by
      unfold filteredSorted
      cases h : filterStep rows query with
      | error e => simp [h]
      | ok out => simp [h]
    rw [hstep]
    unfold filterStep
    by_cases hq : lowerStr (String.mk (trimList query.data)) = ""
    · rw [if_pos hq]
      simp [hq]
    · rw [if_neg hq]
      rw [jsFilter_error_iff]
      constructor
      · rintro ⟨r, hr, he⟩
        exact ⟨hq, r, hr, (symbolMatches_error_iff r _).mp he⟩
      · rintro ⟨_, r, hr, hx⟩
        exact ⟨r, hr, (symbolMatches_error_iff r _).mpr hx⟩
  · exact map_fst_netTotals

/-! ## Claims about the totals aggregator -/

/-- C3: for every visible row set `netTotalsByDelta` carries exactly the ten
keys `"0.05" … "0.50"` (the two-decimal strings of the delta ladder, in
order); each key maps to the sum of the per-row contributions, where a
missing net field or one that fails numeric coercion contributes exactly
zero; the empty visible set yields all-zero sums. -/
theorem netTotals_keys_and_sums_spec :
    (∀ visible : List Row, (netTotalsByDelta visible).map Prod.fst
        = ["0.05", "0.10", "0.15", "0.20", "0.25", "0.30", "0.35", "0.40", "0.45", "0.50"])
    ∧ (∀ (visible : List Row) (d : ℚ), d ∈ DELTAS →
        (netTotalsByDelta visible).lookup (deltaKey d)
          = some ((visible.map (fun r => netContrib r d)).sum))
    ∧ (∀ (r : Row) (d : ℚ), jsGet r (netKey d) = .undefined → netContrib r d = 0)
    ∧ (∀ (r : Row) (d : ℚ) (s : String), jsGet r (netKey d) = .str s →
        strToNumber s = none → netContrib r d = 0)
    ∧ (∀ d ∈ DELTAS, (netTotalsByDelta []).lookup (deltaKey d) = some 0) := by
  refine ⟨?_, fun visible d hd => lookup_netTotals visible d hd, ?_, ?_, ?_⟩
  · intro visible
    rw [map_fst_netTotals]
    with_unfolding_all decide
  · intro r d h
    unfold netContrib nullishCoalesce
    rw [h]
    rfl
  · intro r d s h hs
    unfold netContrib nullishCoalesce
    rw [h]
    simp [toNumber, hs]
  · intro d hd
    rw [lookup_netTotals [] d hd]
    rfl

/-- C3 witness: the sum conjunct of `netTotals_keys_and_sums_spec` at the
two example rows and the 0.15 delta step. -/
theorem netTotals_keys_and_sums_spec_witness :
    (netTotalsByDelta exampleRows).lookup (deltaKey (mkRat 3 20))
      = some ((exampleRows.map (fun r => netContrib r (mkRat 3 20))).sum) :=
  netTotals_keys_and_sums_spec.2.1 exampleRows (mkRat 3 20) (by with_unfolding_all decide)

/-- C5: `netTotalsByDelta` is additive — for disjoint row sets `A` and `B`,
the totals of `A ++ B` at every delta key are the element-wise sums of the
totals of `A` and of `B`. -/
theorem netTotals_additive_spec :
    ∀ (A B : List Row), A.Disjoint B → ∀ d ∈ DELTAS, ∀ x y : ℚ,
      (netTotalsByDelta A).lookup (deltaKey d) = some x →
      (netTotalsByDelta B).lookup (deltaKey d) = some y →
      (netTotalsByDelta (A ++ B)).lookup (deltaKey d) = some (x + y) := by
  intro A B _ d hd x y hA hB
  rw [lookup_netTotals A d hd] at hA
  rw [lookup_netTotals B d hd] at hB
  rw [lookup_netTotals (A ++ B) d hd, List.map_append, List.sum_append,
    ← Option.some.inj hA, ← Option.some.inj hB]

/-- C5 witness: `netTotals_additive_spec` applied to two concrete disjoint
singleton row sets at the 0.15 step. -/
theorem netTotals_additive_spec_witness :
    (netTotalsByDelta ([[("0.15N", JSVal.num 10)]] ++ [[("0.15N", JSVal.num 25)]])).lookup
        (deltaKey (mkRat 3 20)) = some (10 + 25) :=
  netTotals_additive_spec [[("0.15N", JSVal.num 10)]] [[("0.15N", JSVal.num 25)]]
    (by
      intro a ha hb
      rw [List.mem_singleton] at ha hb
      rw [ha] at hb
      exact absurd hb (by with_unfolding_all decide))
    (mkRat 3 20) (by with_unfolding_all decide) 10 25
    (by with_unfolding_all decide) (by with_unfolding_all decide)

/-! ## Claims about the sort -/

theorem ltChars_le_trans : ∀ {x y z : List Char},
    ltChars x y = false → ltChars y z = false → ltChars x z = false := by
  intro x y z h1 h2
  by_contra h
  rw [Bool.not_eq_false] at h
  rcases ltChars_tri y z with ht | ht | ht
  · exact absurd ht (by simp [h2])
  · exact absurd (ltChars_trans h ht) (by simp [h1])
  · rw [← ht] at h
    exact absurd h (by simp [h1])

theorem strToNumber_compVal_inr {k : String} {b : Row} {s : String}
    (h : compVal k b = .inr s) : strToNumber s = none := by
  unfold compVal at h
  cases hv : jsGet b k with
  | num q => rw [hv] at h; simp [toNumber] at h
  | null => rw [hv] at h; simp [toNumber] at h
  | undefined =>
    rw [hv] at h
    simp only [toNumber, jsStringOf] at h
    cases h
    with_unfolding_all decide
  | str t =>
    rw [hv] at h
    simp only [toNumber] at h
    cases htn : strToNumber t with
    | some q => rw [htn] at h; cases h
    | none =>
      rw [htn] at h
      simp only [jsStringOf] at h
      cases h
      exact htn

/-- C4 (counterexample): over the two rows `{k:1}` and `{k:"a"}` the
comparator treats the mixed number/string pair as a tie, so sorting
ascending and sorting descending leave the pair in the same relative order
even though the two comparison values are distinct — the claimed mutual
reversal fails. -/
theorem sort_direction_mixed_cex :
    jsSortStep SortDir.asc "k" [[("k", JSVal.num 1)], [("k", JSVal.str "a")]]
      = [[("k", JSVal.num 1)], [("k", JSVal.str "a")]]
    ∧ jsSortStep SortDir.desc "k" [[("k", JSVal.num 1)], [("k", JSVal.str "a")]]
      = [[("k", JSVal.num 1)], [("k", JSVal.str "a")]]
    ∧ compVal "k" [("k", JSVal.num 1)] ≠ compVal "k" [("k", JSVal.str "a")] := by
  with_unfolding_all decide

/-- C4 (amended): the sort direction flips only the sign of the comparison
(`compRows desc = -compRows asc`, coercion untouched); and whenever the
comparison values of the row set are homogeneous — all numeric or all
strings, which is when the comparator is consistent — sorting ascending and
descending produce mutually reversed relative order for every pair of rows
with distinct comparison values. Mixed row sets are excluded by the
counterexample. -/
theorem sort_direction_reversal_spec :
    (∀ (k : String) (a b : Row), compRows SortDir.desc k a b = -compRows SortDir.asc k a b)
    ∧ (∀ (k : String) (rows : List Row),
        ((∀ r ∈ rows, ∃ x : ℚ, compVal k r = .inl x) ∨
         (∀ r ∈ rows, ∃ s : String, compVal k r = .inr s)) →
        ∀ (i j i' j' : ℕ) (a b : Row),
          (jsSortStep SortDir.asc k rows)[i]? = some a →
          (jsSortStep SortDir.asc k rows)[j]? = some b → i < j →
          compVal k a ≠ compVal k b →
          (jsSortStep SortDir.desc k rows)[i']? = some a →
          (jsSortStep SortDir.desc k rows)[j']? = some b →
          j' < i') := by
  refine ⟨compRows_desc_neg, ?_⟩
  intro k rows homog
  rcases homog with hnum | hstr
  · have hanti : ∀ a b, a ∈ rows → b ∈ rows →
        sortLe SortDir.asc k a b = true → sortLe SortDir.desc k a b = true →
        compVal k a = compVal k b := by
      intro a b ha hb h1 h2
      obtain ⟨x, hx⟩ := hnum a ha
      obtain ⟨y, hy⟩ := hnum b hb
      rw [hx, hy, le_antisymm ((sortLe_asc_inl hx hy).mp h1) ((sortLe_desc_inl hx hy).mp h2)]
    have ha := pairwise_insSort (sortLe SortDir.asc k) rows
      (by
        intro a ha b hb
        obtain ⟨x, hx⟩ := hnum a ha
        obtain ⟨y, hy⟩ := hnum b hb
        rcases le_total x y with h | h
        · exact Or.inl ((sortLe_asc_inl hx hy).mpr h)
        · exact Or.inr ((sortLe_asc_inl hy hx).mpr h))
      (by
        intro a ha b hb c hc h1 h2
        obtain ⟨x, hx⟩ := hnum a ha
        obtain ⟨y, hy⟩ := hnum b hb
        obtain ⟨z, hz⟩ := hnum c hc
        exact (sortLe_asc_inl hx hz).mpr
          (le_trans ((sortLe_asc_inl hx hy).mp h1) ((sortLe_asc_inl hy hz).mp h2)))
    have hd := pairwise_insSort (sortLe SortDir.desc k) rows
      (by
        intro a ha b hb
        obtain ⟨x, hx⟩ := hnum a ha
        obtain ⟨y, hy⟩ := hnum b hb
        rcases le_total y x with h | h
        · exact Or.inl ((sortLe_desc_inl hx hy).mpr h)
        · exact Or.inr ((sortLe_desc_inl hy hx).mpr h))
      (by
        intro a ha b hb c hc h1 h2
        obtain ⟨x, hx⟩ := hnum a ha
        obtain ⟨y, hy⟩ := hnum b hb
        obtain ⟨z, hz⟩ := hnum c hc
        exact (sortLe_desc_inl hx hz).mpr
          (le_trans ((sortLe_desc_inl hy hz).mp h2) ((sortLe_desc_inl hx hy).mp h1)))
    exact reversal_core hanti ha hd
  · have hanti : ∀ a b, a ∈ rows → b ∈ rows →
        sortLe SortDir.asc k a b = true → sortLe SortDir.desc k a b = true →
        compVal k a = compVal k b := by
      intro a b ha hb h1 h2
      obtain ⟨s, hs⟩ := hstr a ha
      obtain ⟨t, ht⟩ := hstr b hb
      have e1 := (sortLe_asc_inr hs ht).mp h1
      have e2 := (sortLe_desc_inr hs ht).mp h2
      rcases ltChars_tri s.data t.data with hc | hc | hc
      · exact absurd hc (by simp [e2])
      · exact absurd hc (by simp [e1])
      · rw [hs, ht, stringDataInj hc]
    have ha := pairwise_insSort (sortLe SortDir.asc k) rows
      (by
        intro a ha b hb
        obtain ⟨s, hs⟩ := hstr a ha
        obtain ⟨t, ht⟩ := hstr b hb
        by_cases h : ltChars t.data s.data = true
        · exact Or.inr ((sortLe_asc_inr ht hs).mpr (ltChars_asymm h))
        · exact Or.inl ((sortLe_asc_inr hs ht).mpr (Bool.not_eq_true _ ▸ h))
      )
      (by
        intro a ha b hb c hc h1 h2
        obtain ⟨s, hs⟩ := hstr a ha
        obtain ⟨t, ht⟩ := hstr b hb
        obtain ⟨u, hu⟩ := hstr c hc
        exact (sortLe_asc_inr hs hu).mpr
          (ltChars_le_trans ((sortLe_asc_inr ht hu).mp h2) ((sortLe_asc_inr hs ht).mp h1)))
    have hd := pairwise_insSort (sortLe SortDir.desc k) rows
      (by
        intro a ha b hb
        obtain ⟨s, hs⟩ := hstr a ha
        obtain ⟨t, ht⟩ := hstr b hb
        by_cases h : ltChars s.data t.data = true
        · exact Or.inr ((sortLe_desc_inr ht hs).mpr (ltChars_asymm h))
        · exact Or.inl ((sortLe_desc_inr hs ht).mpr (Bool.not_eq_true _ ▸ h))
      )
      (by
        intro a ha b hb c hc h1 h2
        obtain ⟨s, hs⟩ := hstr a ha
        obtain ⟨t, ht⟩ := hstr b hb
        obtain ⟨u, hu⟩ := hstr c hc
        exact (sortLe_desc_inr hs hu).mpr
          (ltChars_le_trans ((sortLe_desc_inr hs ht).mp h1) ((sortLe_desc_inr ht hu).mp h2)))
    exact reversal_core hanti ha hd

/-- C4 witness: the reversal conjunct of `sort_direction_reversal_spec` at
the concrete numeric rows `{k:5}`, `{k:2}` — ascending puts `{k:2}` first,
descending reverses the pair. -/
theorem sort_direction_reversal_spec_witness :
    (jsSortStep SortDir.asc "k" [[("k", JSVal.num 5)], [("k", JSVal.num 2)]])[0]?
        = some [("k", JSVal.num 2)]
    ∧ (0 : ℕ) < 1 := by
  refine ⟨by with_unfolding_all decide, ?_⟩
  exact sort_direction_reversal_spec.2 "k" [[("k", JSVal.num 5)], [("k", JSVal.num 2)]]
    (Or.inl (by
      intro r hr
      rcases List.mem_cons.mp hr with rfl | hr
      · exact ⟨5, by with_unfolding_all decide⟩
      · rcases List.mem_singleton.mp hr with rfl
        exact ⟨2, by with_unfolding_all decide⟩))
    0 1 1 0 [("k", JSVal.num 2)] [("k", JSVal.num 5)]
    (by with_unfolding_all decide) (by with_unfolding_all decide)
    (by with_unfolding_all decide) (by with_unfolding_all decide)
    (by with_unfolding_all decide) (by with_unfolding_all decide)

/-- C10 (counterexample): on the four rows `{k:"z"}, {k:"w"}, {k:1},
{k:"a"}` the comparator is *inconsistent* in the ECMAScript sense — the
mixed pairs `"z"~1` and `1~"a"` are ties but `"z"` and `"a"` compare
strictly — so the standard leaves the sort order implementation-defined.
The permutation `[a, w, z, 1]` (the output of V8's binary insertion sort on
this input) is therefore a conforming outcome, and in it the directly-tied
mixed pair `({k:1}, {k:"a"})` has *not* kept its input order. -/
theorem sort_tied_pair_order_cex :
    compRows SortDir.asc "k" [("k", JSVal.num 1)] [("k", JSVal.str "a")] = 0
    ∧ [[("k", JSVal.num 1)], [("k", JSVal.str "a")]]
        <+ [[("k", JSVal.str "z")], [("k", JSVal.str "w")],
            [("k", JSVal.num 1)], [("k", JSVal.str "a")]]
    ∧ ¬ ConsistentOn SortDir.asc "k"
        [[("k", JSVal.str "z")], [("k", JSVal.str "w")],
         [("k", JSVal.num 1)], [("k", JSVal.str "a")]]
    ∧ jsSortOutcome SortDir.asc "k"
        [[("k", JSVal.str "z")], [("k", JSVal.str "w")],
         [("k", JSVal.num 1)], [("k", JSVal.str "a")]]
        [[("k", JSVal.str "a")], [("k", JSVal.str "w")],
         [("k", JSVal.str "z")], [("k", JSVal.num 1)]]
    ∧ ¬ ([[("k", JSVal.num 1)], [("k", JSVal.str "a")]]
        <+ [[("k", JSVal.str "a")], [("k", JSVal.str "w")],
            [("k", JSVal.str "z")], [("k", JSVal.num 1)]]) := by
  with_unfolding_all decide

/-- C10 (amended): the comparator's edge semantics — a `null` sort-key
field compares as the number 0; a missing field compares as the string
`"undefined"`; a mixed number/string pair fails both relational tests, so
the comparator returns 0 in both orders and for both directions; and such
tied pairs keep their input order through the sort whenever the comparator
is consistent on the row set — the region where ECMAScript mandates the
stable sorted result; on inconsistent row sets the order is
implementation-defined (see the counterexample). -/
theorem comparator_edge_semantics_spec :
    (∀ (r : Row) (k : String), jsGet r k = .null → compVal k r = .inl 0)
    ∧ (∀ (r : Row) (k : String), jsGet r k = .undefined → compVal k r = .inr "undefined")
    ∧ (∀ (k : String) (a b : Row) (x : ℚ) (s : String) (dir : SortDir),
        compVal k a = .inl x → compVal k b = .inr s →
        compRows dir k a b = 0 ∧ compRows dir k b a = 0)
    ∧ (∀ (dir : SortDir) (k : String) (l out : List Row) (a b : Row),
        ConsistentOn dir k l →
        compRows dir k a b = 0 → [a, b] <+ l →
        jsSortOutcome dir k l out → [a, b] <+ out) := by
  refine ⟨?_, ?_, ?_, ?_⟩
  · intro r k h
    unfold compVal
    rw [h]
    rfl
  · intro r k h
    unfold compVal
    rw [h]
    rfl
  · intro k a b x s dir hx hs
    have hsn := strToNumber_compVal_inr hs
    constructor
    · simp [compRows, hx, hs, jsLtVal, hsn]
    · simp [compRows, hx, hs, jsLtVal, hsn]
  · intro dir k l out a b hcons hcomp hsub hout
    rw [hout.2 hcons]
    exact pair_sublist_insSort (sortLe dir k)
      (by simp [sortLe, hcomp]) hsub

/-- C10 witness: the tie conjuncts of `comparator_edge_semantics_spec` at
concrete rows (a numeric field against a non-numeric string field), and the
consistent-case order-keeping conjunct at a concrete two-row list, whose
all-ties comparator is consistent. -/
theorem comparator_edge_semantics_spec_witness :
    (compRows SortDir.asc "k" [("k", JSVal.num 1)] [("k", JSVal.str "a")] = 0
      ∧ compRows SortDir.asc "k" [("k", JSVal.str "a")] [("k", JSVal.num 1)] = 0)
    ∧ [[("k", JSVal.num 1)], [("k", JSVal.str "a")]]
        <+ jsSortStep SortDir.asc "k" [[("k", JSVal.num 1)], [("k", JSVal.str "a")]] := by
  constructor
  · exact comparator_edge_semantics_spec.2.2.1 "k" [("k", JSVal.num 1)] [("k", JSVal.str "a")]
      1 "a" SortDir.asc (by with_unfolding_all decide) (by with_unfolding_all decide)
  · exact comparator_edge_semantics_spec.2.2.2 SortDir.asc "k"
      [[("k", JSVal.num 1)], [("k", JSVal.str "a")]]
      (jsSortStep SortDir.asc "k" [[("k", JSVal.num 1)], [("k", JSVal.str "a")]])
      [("k", JSVal.num 1)] [("k", JSVal.str "a")]
      (by with_unfolding_all decide) (by with_unfolding_all decide)
      (by with_unfolding_all decide)
      ⟨by with_unfolding_all decide, fun _ => rfl⟩

/-! ## Frame and temporal claims -/

/-- C7: filtering and sorting never mutate the source row array — on every
path (including the throwing one) the traced run leaves the `rows` array
holding exactly its original contents, and the produced output is the
separately constructed filtered-and-sorted sequence. -/
theorem filteredSorted_no_mutation_spec :
    ∀ (rows : List Row) (query k : String) (dir : SortDir),
      (filteredSortedTrace rows query k dir).1 = rows
      ∧ (filteredSortedTrace rows query k dir).2 = filteredSorted rows query k dir := by
  intro rows query k dir
  unfold filteredSortedTrace filteredSorted
  cases h : filterStep rows query <;> simp

/-- C9: starting from the empty grid, along any event trace containing
exactly one fetch resolution, the anchor scroll fires exactly once — at the
fetch, and only when it delivers at least one row; query edits and
sort-header clicks (before or after) never fire it, because the effect's
dependency is the row count, which they do not change; and when it fires it
scrolls to the header offset minus the cumulative frozen-column width
(86+52+39) minus the 8-pixel margin, clamped at zero. -/
theorem autoScroll_once_spec :
    (∀ (pre post : List GridEvent) (d : Option (List Row)),
      (∀ e ∈ pre, e.isFetch = false) → (∀ e ∈ post, e.isFetch = false) →
      scrollCount startGridState (pre ++ .fetched d :: post)
        = if (d.getD []).length = 0 then 0 else 1)
    ∧ (∀ (s : GridState) (e : GridEvent), e.isFetch = false →
        scrollFires s (stepGrid s e) = false)
    ∧ (∀ off : ℤ, scrollTargetX off = max 0 (off - (86 + 52 + 39) - 8)) := by
  refine ⟨?_, scrollFires_nonfetch, fun _ => rfl⟩
  intro pre post d hpre hpost
  exact scrollCount_one_fetch pre startGridState rfl hpre post hpost d

/-- C9 witness: `autoScroll_once_spec` on the concrete trace
query-edit, fetch of one row, query-edit, sort-click — the scroll fires
exactly once. -/
theorem autoScroll_once_spec_witness :
    scrollCount startGridState
        ([.editQuery "x"] ++ .fetched (some [[("symbol", JSVal.str "AAA")]])
          :: [.editQuery "a", .clickSort "Shares"])
      = if ((some [[("symbol", JSVal.str "AAA")]] : Option (List Row)).getD []).length = 0
        then 0 else 1 :=
  autoScroll_once_spec.1 [.editQuery "x"] [.editQuery "a", .clickSort "Shares"]
    (some [[("symbol", JSVal.str "AAA")]])
    (by
      intro e he
      rcases List.mem_singleton.mp he with rfl
      rfl)
    (by
      intro e he
      rcases List.mem_cons.mp he with rfl | he
      · rfl
      · rcases List.mem_singleton.mp he with rfl
        rfl)

end Premiums
